import Mathlib

/-!
# Strider semantic routing engine — verification development

Shallow embedding of the Strider backend (`backend/app`): the cost compiler
(`build_cost_calculation`), the nearest-node query (`find_nearest_node`), the
route pipeline (`calculate_route`, `route_to_geojson`), the deterministic
keyword fallback of the LLM service (`_get_fallback_preferences`,
`analyze_prompt`) and the `RoutingPreferences` pydantic model.

Real numbers of the source (coordinates, lengths, multipliers, scores) are
modelled as rationals.  Python dictionaries are modelled as association lists
in insertion order (a Python dict never holds a duplicate key, so theorems
about arbitrary maps carry a `Nodup` hypothesis on the keys where it matters).
-/

namespace Strider

/-- A geographic point `(lon, lat)`, as stored in `routing.nodes.geom`. -/
structure Point where
  lon : ℚ
  lat : ℚ
deriving DecidableEq, Repr

/-- A row of `routing.nodes` (models/tables.py, class `Node`). -/
structure Node where
  id : Nat
  geom : Point
deriving DecidableEq, Repr

/-- A row of `routing.edges` (models/tables.py, class `Edge`).  Only the
columns consumed by the routing service are carried. -/
structure Edge where
  id : Nat
  source : Nat
  target : Nat
  length : ℚ
  type : String
  lit : Bool
  scenic_score : ℚ
  name : Option String
  oneway : Bool
deriving DecidableEq, Repr

/-- A preference mapping (Python `Dict[str, float]`), in insertion order. -/
abbrev Prefs := List (String × ℚ)

/-- Squared Euclidean distance between two points.  The source orders rows by
the PostGIS `<->` distance operator and only ever compares distances, so the
order-isomorphic squared distance is used. -/
def dist2 (p q : Point) : ℚ :=
  (p.lon - q.lon) ^ 2 + (p.lat - q.lat) ^ 2

/-- `find_nearest_node` (services/routing.py): `SELECT id FROM routing.nodes
ORDER BY geom <-> point LIMIT 1`, `None` when the table is empty.  The SQL
orders by distance only, with no secondary ordering, so among equidistant rows
the first row in table enumeration order is kept (the list order here). -/
def nearest_fold (q : Point) (n : Node) (ns : List Node) : Node :=
  ns.foldl (fun best m => if dist2 m.geom q < dist2 best.geom q then m else best) n

def find_nearest_node (nodes : List Node) (lon lat : ℚ) : Option Nat :=
  match nodes with
  | [] => none
  | n :: ns => some (nearest_fold ⟨lon, lat⟩ n ns).id

/-! ## Cost compiler (`build_cost_calculation`, services/routing.py) -/

/-- The special attribute keys excluded from road-type treatment
(services/routing.py line 123). -/
def special_attributes : List String := ["scenic", "unlit", "lit"]

/-- The road-type `WHEN` conditions: every preference entry whose key is not a
special attribute and whose value is not `1.0` (services/routing.py
lines 125–128). -/
def type_conditions (m : Prefs) : Prefs :=
  m.filter fun kv => !(special_attributes.contains kv.1) && kv.2 != 1

/-- The road-type factor of the generated `CASE` expression: the first
condition whose key equals the edge's type, else `1.0`. -/
def road_type_factor (m : Prefs) (e : Edge) : ℚ :=
  match (type_conditions m).find? (fun kv => kv.1 == e.type) with
  | some kv => kv.2
  | none => 1

/-- The lighting factor (services/routing.py lines 136–139):
`CASE WHEN lit=false THEN multipliers['unlit'] ELSE 1.0 END` when `unlit`
is present with value other than `1.0`, else `1.0`. -/
def lit_factor (m : Prefs) (e : Edge) : ℚ :=
  match m.lookup "unlit" with
  | some v => if v ≠ 1 then (if e.lit = false then v else 1) else 1
  | none => 1

/-- The scenic factor (services/routing.py lines 142–145):
`CASE WHEN scenic_score > 7 THEN multipliers['scenic'] ELSE 1.0 END` when
`scenic` is present with value other than `1.0`, else `1.0`. -/
def scenic_factor (m : Prefs) (e : Edge) : ℚ :=
  match m.lookup "scenic" with
  | some v => if v ≠ 1 then (if e.scenic_score > 7 then v else 1) else 1
  | none => 1

/-- `build_cost_calculation` (services/routing.py lines 106–149), as the value
of the generated SQL expression
`length * road_type_factor * lit_factor * scenic_factor` on an edge row. -/
def build_cost_calculation (m : Prefs) (e : Edge) : ℚ :=
  e.length * road_type_factor m e * lit_factor m e * scenic_factor m e

/-! Claim-side factor definitions (C1).  These restate the factors in the
words of the specification, to be compared with the compiled ones. -/

/-- Spec wording of the type factor: the multiplier stored under the edge's
road-type key when present with value ≠ 1.0, else 1.0; the special keys never
act as road-type keys. -/
def spec_type_factor (m : Prefs) (e : Edge) : ℚ :=
  if e.type ∈ special_attributes then 1
  else
    match m.lookup e.type with
    | some v => if v ≠ 1 then v else 1
    | none => 1

/-- Spec wording of the lit factor: the multiplier under `"unlit"` when that
key is present with value ≠ 1.0 and the edge is unlit, else 1.0. -/
def spec_lit_factor (m : Prefs) (e : Edge) : ℚ :=
  match m.lookup "unlit" with
  | some v => if v ≠ 1 ∧ e.lit = false then v else 1
  | none => 1

/-- Spec wording of the scenic factor: the multiplier under `"scenic"` when
that key is present with value ≠ 1.0 and `scenic_score > 7.0`, else 1.0. -/
def spec_scenic_factor (m : Prefs) (e : Edge) : ℚ :=
  match m.lookup "scenic" with
  | some v => if v ≠ 1 ∧ e.scenic_score > 7 then v else 1
  | none => 1

theorem lit_factor_eq_spec (m : Prefs) (e : Edge) :
    lit_factor m e = spec_lit_factor m e := by
  unfold lit_factor spec_lit_factor
  cases m.lookup "unlit" with
  | none => rfl
  | some v =>
      by_cases hv : v = 1 <;> by_cases hl : e.lit = false <;>
        simp [hv, hl]

theorem scenic_factor_eq_spec (m : Prefs) (e : Edge) :
    scenic_factor m e = spec_scenic_factor m e := by
  unfold scenic_factor spec_scenic_factor
  cases m.lookup "scenic" with
  | none => rfl
  | some v =>
      by_cases hv : v = 1 <;> by_cases hs : e.scenic_score > 7 <;>
        simp [hv, hs]

theorem lookup_cons_of_ne {kv : String × ℚ} {rest : Prefs} {t : String}
    (h : kv.1 ≠ t) : (kv :: rest).lookup t = rest.lookup t := by
  have hb : (t == kv.1) = false := beq_eq_false_iff_ne.mpr (Ne.symm h)
  simp [List.lookup, hb]

theorem road_type_factor_eq_spec (m : Prefs) (e : Edge)
    (hnd : (m.map Prod.fst).Nodup) :
    road_type_factor m e = spec_type_factor m e := by
  induction m with
  | nil =>
      unfold road_type_factor spec_type_factor type_conditions
      simp [List.lookup]
  | cons kv rest ih =>
      have hnd' : (rest.map Prod.fst).Nodup := (List.nodup_cons.mp hnd).2
      have hkey : kv.1 ∉ rest.map Prod.fst := (List.nodup_cons.mp hnd).1
      by_cases hk : kv.1 = e.type
      · -- the head entry carries the edge's type; no later entry may
        have hrest : ∀ p ∈ rest, (p.1 == e.type) = false := by
          intro p hp
          have hne : p.1 ≠ e.type := by
            intro hpe
            exact hkey (hk ▸ hpe ▸ List.mem_map_of_mem Prod.fst hp)
          simpa using hne
        have hrest_find :
            (type_conditions rest).find? (fun p => p.1 == e.type) = none := by
          refine List.find?_eq_none.mpr ?_
          intro p hp
          have hp' : p ∈ rest := (List.mem_filter.mp hp).1
          simp [hrest p hp']
        by_cases hsp : kv.1 ∈ special_attributes
        · -- special key: filtered out of the type conditions
          have hespec : e.type ∈ special_attributes := hk ▸ hsp
          have hc : special_attributes.contains kv.1 = true := by simpa using hsp
          have hcond :
              (!(special_attributes.contains kv.1) && (kv.2 != 1)) = false := by
            rw [hc]; rfl
          have hdrop : type_conditions (kv :: rest) = type_conditions rest := by
            unfold type_conditions
            rw [List.filter_cons, hcond]
            simp
          have hroad : road_type_factor (kv :: rest) e = 1 := by
            unfold road_type_factor
            rw [hdrop, hrest_find]
          rw [hroad]
          unfold spec_type_factor
          rw [if_pos hespec]
        · have hespec : e.type ∉ special_attributes := hk ▸ hsp
          have hc : special_attributes.contains kv.1 = false := by simpa using hsp
          have hlook : (kv :: rest).lookup e.type = some kv.2 := by
            have hb : (e.type == kv.1) = true := by simp [hk]
            simp [List.lookup, hb]
          by_cases hv : kv.2 = 1
          · -- value 1: condition dropped, lookup finds the neutral value
            have hb0 : (kv.2 != 1) = false := by simpa using hv
            have hcond :
                (!(special_attributes.contains kv.1) && (kv.2 != 1)) = false := by
              rw [hc, hb0]; rfl
            have hdrop : type_conditions (kv :: rest) = type_conditions rest := by
              unfold type_conditions
              rw [List.filter_cons, hcond]
              simp
            have hroad : road_type_factor (kv :: rest) e = 1 := by
              unfold road_type_factor
              rw [hdrop, hrest_find]
            rw [hroad]
            unfold spec_type_factor
            rw [if_neg hespec, hlook]
            simp [hv]
          · -- value ≠ 1: condition kept and found first
            have hb1 : (kv.2 != 1) = true := by simpa using hv
            have hcond :
                (!(special_attributes.contains kv.1) && (kv.2 != 1)) = true := by
              rw [hc, hb1]; rfl
            have hkeep :
                type_conditions (kv :: rest) = kv :: type_conditions rest := by
              unfold type_conditions
              rw [List.filter_cons, hcond]
              simp
            have hroad : road_type_factor (kv :: rest) e = kv.2 := by
              unfold road_type_factor
              rw [hkeep, List.find?_cons_of_pos _ (by simpa using hk)]
            rw [hroad]
            unfold spec_type_factor
            rw [if_neg hespec, hlook]
            simp [hv]
      · -- the head entry is for a different key: both sides skip it
        have hroad :
            road_type_factor (kv :: rest) e = road_type_factor rest e := by
          unfold road_type_factor type_conditions
          rw [List.filter_cons]
          by_cases hcond :
              (!(special_attributes.contains kv.1) && kv.2 != 1) = true
          · rw [if_pos hcond, List.find?_cons_of_neg _ (by simpa using hk)]
          · rw [if_neg hcond]
        have hspec :
            spec_type_factor (kv :: rest) e = spec_type_factor rest e := by
          unfold spec_type_factor
          rw [lookup_cons_of_ne hk]
        rw [hroad, hspec]
        exact ih hnd'

/-- C1: for every edge and preference map (distinct keys, as in a Python
dict), the compiled cost equals `length` times the three independent factors
described by the specification: the road-type factor, the lit factor and the
scenic factor, with the special keys `scenic`, `unlit`, `lit` never acting as
road-type keys. -/
theorem compiled_cost_is_product_of_factors (m : Prefs) (e : Edge)
    (hnd : (m.map Prod.fst).Nodup) :
    build_cost_calculation m e =
      e.length * spec_type_factor m e * spec_lit_factor m e *
        spec_scenic_factor m e := by
  unfold build_cost_calculation
  rw [road_type_factor_eq_spec m e hnd, lit_factor_eq_spec,
    scenic_factor_eq_spec]

/-- Witness for C1 at a concrete preference map and edge. -/
theorem compiled_cost_is_product_of_factors_witness :
    ((([("residential", (0.8 : ℚ)), ("unlit", 10), ("scenic", 0.5)] :
        Prefs).map Prod.fst).Nodup) ∧
      build_cost_calculation
          [("residential", 0.8), ("unlit", 10), ("scenic", 0.5)]
          ⟨13, 5, 9, 140, "path", false, 9, none, false⟩ =
        (140 : ℚ) *
          spec_type_factor
            [("residential", 0.8), ("unlit", 10), ("scenic", 0.5)]
            ⟨13, 5, 9, 140, "path", false, 9, none, false⟩ *
          spec_lit_factor
            [("residential", 0.8), ("unlit", 10), ("scenic", 0.5)]
            ⟨13, 5, 9, 140, "path", false, 9, none, false⟩ *
          spec_scenic_factor
            [("residential", 0.8), ("unlit", 10), ("scenic", 0.5)]
            ⟨13, 5, 9, 140, "path", false, 9, none, false⟩ :=
  ⟨by decide,
    compiled_cost_is_product_of_factors _
      ⟨13, 5, 9, 140, "path", false, 9, none, false⟩ (by decide)⟩

/-! ## LLM service (services/llm.py) and its pydantic model (models/llm.py) -/

/-- `RoutingPreferences` (models/llm.py): the structured-output schema. -/
structure RoutingPreferences where
  preferences : Prefs
  reasoning : Option String
  time_of_day : Option String
  distance_preference : Option String
deriving DecidableEq, Repr

/-- The error the specification's taxonomy assigns to a non-positive
multiplier. -/
inductive PrefError
  | invalidPreferenceValue
deriving DecidableEq, Repr

/-- Pydantic validation of the `RoutingPreferences.preferences` field
(models/llm.py lines 38–69): the field is declared as `Dict[str, float]` with
a description string only — the model defines no custom validator — so every
well-typed mapping is accepted unchanged; nothing is rejected, nothing is
clamped. -/
def validate_preferences (m : Prefs) : Except PrefError Prefs := .ok m

/-- A Python runtime exception relevant to the embedded fragment. -/
inductive PyError
  | typeError
deriving DecidableEq, Repr

/-- Python's `word in text` substring test on strings. -/
def containsWord (s w : String) : Bool := decide (w.data <:+: s.data)

/-- Python's `str.lower`, character by character. -/
def py_lower (s : String) : String := ⟨s.data.map Char.toLower⟩

def highway_words : List String := ["highway", "busy", "traffic", "major road"]
def scenic_words : List String :=
  ["scenic", "beautiful", "nature", "park", "waterfront"]
def night_words : List String := ["night", "dark", "evening"]
def trail_words : List String := ["trail", "path", "nature"]

/-- The `prefs` dict built by `_get_fallback_preferences` (services/llm.py
lines 155–179): four keyword rules applied independently over the lower-cased
prompt, in insertion order. -/
def fallback_prefs (prompt : String) : Prefs :=
  let pl := py_lower prompt
  (if highway_words.any (containsWord pl) then
      [("highway", (50 : ℚ)), ("primary", 20)] else []) ++
  (if scenic_words.any (containsWord pl) then [("scenic", (0.5 : ℚ))] else []) ++
  (if night_words.any (containsWord pl) then [("unlit", (10 : ℚ))] else []) ++
  (if trail_words.any (containsWord pl) then
      [("path", (0.4 : ℚ)), ("footway", 0.5)] else [])

/-- The `reasoning_parts` list built alongside `prefs`: each matching rule
appends its reasoning string. -/
def fallback_reasoning_parts (prompt : String) : List String :=
  let pl := py_lower prompt
  (if highway_words.any (containsWord pl) then ["Avoiding major roads"] else []) ++
  (if scenic_words.any (containsWord pl) then ["Preferring scenic routes"] else []) ++
  (if night_words.any (containsWord pl) then
      ["Avoiding unlit roads at night"] else []) ++
  (if trail_words.any (containsWord pl) then
      ["Preferring trails and sidewalks"] else [])

/-- `_get_fallback_preferences` (services/llm.py lines 147–190).  Line 182
assigns `reasoning` the prefix string and ends the statement (there is no
line continuation), so line 183 is a separate expression statement
`+ "; ".join(reasoning_parts) if reasoning_parts else "LLM Unavailable. Using
default routing."`.  When `reasoning_parts` is non-empty that expression
applies unary `+` to a `str`, raising `TypeError`; when it is empty the
expression is a discarded no-op and the function returns with `reasoning`
still the assigned prefix string. -/
def get_fallback_preferences (prompt : String) :
    Except PyError RoutingPreferences :=
  let prefs := fallback_prefs prompt
  let parts := fallback_reasoning_parts prompt
  if parts.isEmpty then
    .ok ⟨prefs,
      some "LLM Unavailable. Using fallback keyword matching to infer preferences: ",
      none, none⟩
  else .error .typeError

/-- The outcome of the external structured-output call issued by
`analyze_prompt` (services/llm.py lines 77–85): either a schema-valid
`RoutingPreferences`, or a failure (timeout, transport error, or
schema-invalid output after the bounded retries). -/
inductive LLMOutcome
  | ok (r : RoutingPreferences)
  | failure (msg : String)
deriving DecidableEq, Repr

/-- `analyze_prompt` (services/llm.py lines 52–91): return the external
model's result on success; on any exception fall back to
`_get_fallback_preferences` inside the `except` block.  An exception raised
by the fallback itself is not caught and propagates to the caller. -/
def analyze_prompt (outcome : LLMOutcome) (prompt : String) :
    Except PyError RoutingPreferences :=
  match outcome with
  | .ok r => .ok r
  | .failure _ => get_fallback_preferences prompt

/-- C2 (code bug): on the prompt "scenic run avoiding highways" the fallback
classifier raises `TypeError` instead of returning the matched preferences,
because line 183 of services/llm.py applies unary `+` to a string whenever a
rule matched; and on a prompt matching no rule it returns the empty map with
reasoning "LLM Unavailable. Using fallback keyword matching to infer
preferences: " rather than "Using default routing.". -/
theorem fallback_classifier_bug :
    get_fallback_preferences "scenic run avoiding highways" =
        .error .typeError ∧
      get_fallback_preferences "plain jog" =
        .ok ⟨[],
          some "LLM Unavailable. Using fallback keyword matching to infer preferences: ",
          none, none⟩ :=
  ⟨rfl, rfl⟩

/-- C3 (code bug): when the external call fails and the prompt matches a
keyword rule, the `TypeError` raised inside `_get_fallback_preferences`
propagates out of `analyze_prompt` to its caller. -/
theorem analyze_prompt_propagates_fallback_crash :
    analyze_prompt (.failure "Request timed out") "night run" =
      .error .typeError :=
  rfl

/-- C10: every entry of the preference map built by the deterministic
fallback classifier has its key in the fixed key set and its value among the
fixed positive constants; in particular every value is strictly positive. -/
theorem fallback_prefs_closed (prompt : String) (k : String) (v : ℚ)
    (h : (k, v) ∈ fallback_prefs prompt) :
    k ∈ ["highway", "primary", "scenic", "unlit", "path", "footway"] ∧
      v ∈ [(50 : ℚ), 20, 0.5, 10, 0.4] ∧ 0 < v := by
  have mem_ite : ∀ (c : Prop) (inst : Decidable c) (l : Prefs),
      (k, v) ∈ (if c then l else []) → (k, v) ∈ l := by
    intro c inst l hm
    split at hm
    · exact hm
    · exact absurd hm (List.not_mem_nil _)
  unfold fallback_prefs at h
  simp only [List.mem_append] at h
  rcases h with ((h | h) | h) | h
  · have h' := mem_ite _ _ _ h
    simp only [List.mem_cons, List.not_mem_nil, or_false, Prod.mk.injEq] at h'
    rcases h' with ⟨hk, hv⟩ | ⟨hk, hv⟩ <;> subst hk <;> subst hv <;>
      exact ⟨by decide, by norm_num, by norm_num⟩
  · have h' := mem_ite _ _ _ h
    simp only [List.mem_cons, List.not_mem_nil, or_false, Prod.mk.injEq] at h'
    rcases h' with ⟨hk, hv⟩
    subst hk; subst hv
    exact ⟨by decide, by norm_num, by norm_num⟩
  · have h' := mem_ite _ _ _ h
    simp only [List.mem_cons, List.not_mem_nil, or_false, Prod.mk.injEq] at h'
    rcases h' with ⟨hk, hv⟩
    subst hk; subst hv
    exact ⟨by decide, by norm_num, by norm_num⟩
  · have h' := mem_ite _ _ _ h
    simp only [List.mem_cons, List.not_mem_nil, or_false, Prod.mk.injEq] at h'
    rcases h' with ⟨hk, hv⟩ | ⟨hk, hv⟩ <;> subst hk <;> subst hv <;>
      exact ⟨by decide, by norm_num, by norm_num⟩

/-- Witness for C10 at the prompt "night run" and its produced entry. -/
theorem fallback_prefs_closed_witness :
    (("unlit", (10 : ℚ)) ∈ fallback_prefs "night run") ∧
      ("unlit" ∈ ["highway", "primary", "scenic", "unlit", "path", "footway"] ∧
        (10 : ℚ) ∈ [(50 : ℚ), 20, 0.5, 10, 0.4] ∧ (0 : ℚ) < 10) :=
  ⟨by decide, fallback_prefs_closed "night run" "unlit" 10 (by decide)⟩

/-! ## Path solver

Modelled from the spec: the shortest-path computation of `calculate_route`
(services/routing.py lines 62–86) is delegated to `pgr_dijkstra`, a pgRouting
database extension function whose implementation is not part of this
repository — only its caller is.  Following §4.4 of the specification:
classic Dijkstra over the undirected graph (`directed := false`), a
min-priority frontier keyed by accumulated cost with ties broken by the
lowest incoming edge id, terminating when the end node is popped or the
frontier is exhausted. -/

/-- A frontier candidate: the node reached, the accumulated cost, the
incoming edge id (`none` for the start node) and the edge-id path from the
start. -/
structure Cand where
  node : Nat
  cost : ℚ
  via : Option Nat
  path : List Nat
deriving DecidableEq, Repr

/-- Incoming-edge order for the tie-break: the start marker `none` precedes
every edge id. -/
def viaLt : Option Nat → Option Nat → Bool
  | none, none => false
  | none, some _ => true
  | some _, none => false
  | some a, some b => decide (a < b)

def viaLe (a b : Option Nat) : Bool := viaLt a b || a == b

/-- Frontier order: strictly smaller accumulated cost first, then strictly
smaller incoming edge id. -/
def betterCand (a b : Cand) : Bool :=
  decide (a.cost < b.cost) || (decide (a.cost = b.cost) && viaLt a.via b.via)

/-- Select the best frontier candidate, keeping the earlier entry when
neither strictly betters the other. -/
def pickBest (c : Cand) (cs : List Cand) : Cand :=
  cs.foldl (fun best d => if betterCand d best then d else best) c

/-- Relax every edge incident to the popped candidate's node, in both stored
orientations (undirected traversal; `oneway` is ignored). -/
def relax (edges : List Edge) (cost : Edge → ℚ) (c : Cand) : List Cand :=
  (edges.filter (fun e => e.source == c.node || e.target == c.node)).map
    (fun e =>
      ⟨if e.source == c.node then e.target else e.source,
        c.cost + cost e, some e.id, c.path ++ [e.id]⟩)

/-- The Dijkstra loop: pop the best unvisited candidate; stop with its path
when it is the target; otherwise mark its node visited and extend the
frontier with its relaxations.  `none` when the frontier holds no unvisited
candidate (no path).  The fuel only bounds the recursion; `nodes.length + 1`
is enough whenever the edges reference existing nodes (proved below). -/
def dijkstraLoop (edges : List Edge) (cost : Edge → ℚ) (target : Nat) :
    Nat → List Nat → List Cand → Option (List Nat)
  | 0, _, _ => none
  | fuel + 1, visited, frontier =>
    match frontier.filter (fun c => !(visited.contains c.node)) with
    | [] => none
    | c :: cs =>
      let best := pickBest c cs
      if best.node = target then some best.path
      else
        dijkstraLoop edges cost target fuel (best.node :: visited)
          (relax edges cost best ++ frontier)

/-- `calculate_route` (services/routing.py lines 36–104): choose the cost
expression — plain `length` when `cost_multipliers` is `None` or empty
(Python truthiness), the compiled expression otherwise — and run the
spec-modelled `pgr_dijkstra` search.  The returned row set, i.e. the ordered
list of traversed edge ids, is empty when no path exists or when
`start_node = end_node` (pgr_dijkstra returns an empty set for equal
endpoints, and the terminal `edge = -1` row is dropped by
`WHERE route.edge != -1`). -/
def calculate_route (nodes : List Node) (edges : List Edge)
    (cost_multipliers : Option Prefs) (start_node end_node : Nat) :
    List Nat :=
  let cost : Edge → ℚ :=
    match cost_multipliers with
    | some m =>
        if m.isEmpty then (fun e => e.length) else build_cost_calculation m
    | none => fun e => e.length
  (dijkstraLoop edges cost end_node (nodes.length + 1) []
      [⟨start_node, 0, none, []⟩]).getD []

/-- Undirected adjacency: some edge joins the two nodes, in either stored
orientation. -/
def adjacent (edges : List Edge) (u v : Nat) : Prop :=
  ∃ e ∈ edges, (e.source = u ∧ e.target = v) ∨ (e.source = v ∧ e.target = u)

/-- Connectivity of the graph viewed as an undirected multigraph. -/
inductive Reachable (edges : List Edge) : Nat → Nat → Prop
  | refl (u : Nat) : Reachable edges u u
  | tail {u v w : Nat} : Reachable edges u v → adjacent edges v w →
      Reachable edges u w

/-! ## Frontier selection order (C5) -/

/-- The non-strict frontier order: smaller cost, or equal cost and
incoming-edge id no larger. -/
def candLe (a b : Cand) : Prop :=
  a.cost < b.cost ∨ (a.cost = b.cost ∧ viaLe a.via b.via = true)

theorem viaLe_refl (a : Option Nat) : viaLe a a = true := by
  cases a <;> simp [viaLe]

theorem viaLt_asymm {a b : Option Nat} (h : viaLt a b = true) :
    viaLt b a = false := by
  cases a <;> cases b <;> first | (simp_all [viaLt]; omega) | simp_all [viaLt]

theorem viaLt_trans {a b c : Option Nat} (h1 : viaLt a b = true)
    (h2 : viaLt b c = true) : viaLt a c = true := by
  cases a <;> cases b <;> cases c <;> first | (simp_all [viaLt]; omega) | simp_all [viaLt]

theorem viaLe_trans {a b c : Option Nat} (h1 : viaLe a b = true)
    (h2 : viaLe b c = true) : viaLe a c = true := by
  simp only [viaLe, Bool.or_eq_true, beq_iff_eq] at h1 h2 ⊢
  rcases h1 with h1 | h1
  · rcases h2 with h2 | h2
    · exact Or.inl (viaLt_trans h1 h2)
    · exact Or.inl (h2 ▸ h1)
  · exact h1 ▸ h2

theorem viaLt_total {a b : Option Nat} (h : viaLt a b = false) :
    viaLe b a = true := by
  cases a <;> cases b <;> first | (simp_all [viaLt, viaLe]; omega) | simp_all [viaLt, viaLe]

theorem candLe_refl (a : Cand) : candLe a a :=
  Or.inr ⟨rfl, viaLe_refl a.via⟩

theorem candLe_trans {a b c : Cand} (h1 : candLe a b) (h2 : candLe b c) :
    candLe a c := by
  rcases h1 with h1 | ⟨h1, h1v⟩
  · rcases h2 with h2 | ⟨h2, _⟩
    · exact Or.inl (h1.trans h2)
    · exact Or.inl (h2 ▸ h1)
  · rcases h2 with h2 | ⟨h2, h2v⟩
    · exact Or.inl (h1 ▸ h2)
    · exact Or.inr ⟨h1.trans h2, viaLe_trans h1v h2v⟩

theorem candLe_of_better {a b : Cand} (h : betterCand a b = true) :
    candLe a b := by
  unfold betterCand at h
  simp only [Bool.or_eq_true, Bool.and_eq_true, decide_eq_true_eq] at h
  rcases h with h | ⟨h, hv⟩
  · exact Or.inl h
  · exact Or.inr ⟨h, by simp [viaLe, hv]⟩

theorem candLe_of_not_better {a b : Cand} (h : betterCand a b = false) :
    candLe b a := by
  unfold betterCand at h
  simp only [Bool.or_eq_false_iff, Bool.and_eq_false_iff, decide_eq_false_iff_not] at h
  obtain ⟨h1, h2⟩ := h
  rcases lt_trichotomy a.cost b.cost with hlt | heq | hgt
  · exact absurd hlt h1
  · rcases h2 with h2 | h2
    · exact absurd heq (by simpa using h2)
    · exact Or.inr ⟨heq.symm, viaLt_total h2⟩
  · exact Or.inl hgt

theorem pickBest_mem (c : Cand) (cs : List Cand) : pickBest c cs ∈ c :: cs := by
  induction cs generalizing c with
  | nil => simp [pickBest]
  | cons e cs ih =>
      unfold pickBest
      rw [List.foldl_cons]
      have h := ih (if betterCand e c then e else c)
      unfold pickBest at h
      rcases List.mem_cons.mp h with h | h
      · rw [h]
        split <;> simp
      · simp [h]

theorem pickBest_min (c : Cand) (cs : List Cand) :
    ∀ d ∈ c :: cs, candLe (pickBest c cs) d := by
  induction cs generalizing c with
  | nil =>
      intro d hd
      rcases List.mem_cons.mp hd with h | h
      · rw [h]; exact candLe_refl _
      · exact absurd h (List.not_mem_nil d)
  | cons e cs ih =>
      intro d hd
      unfold pickBest
      rw [List.foldl_cons]
      have hacc : candLe (pickBest (if betterCand e c then e else c) cs) c := by
        have h1 := ih (if betterCand e c then e else c)
          (if betterCand e c then e else c) (List.mem_cons_self _ _)
        have h2 : candLe (if betterCand e c then e else c) c := by
          by_cases hb : betterCand e c = true
          · rw [if_pos hb]; exact candLe_of_better hb
          · rw [if_neg hb]; exact candLe_refl c
        exact candLe_trans h1 h2
      have hacc_e : candLe (pickBest (if betterCand e c then e else c) cs) e := by
        have h1 := ih (if betterCand e c then e else c)
          (if betterCand e c then e else c) (List.mem_cons_self _ _)
        have h2 : candLe (if betterCand e c then e else c) e := by
          by_cases hb : betterCand e c = true
          · rw [if_pos hb]; exact candLe_refl e
          · rw [if_neg hb]
            exact candLe_of_not_better (by simpa using hb)
        exact candLe_trans h1 h2
      rcases List.mem_cons.mp hd with h | h
      · rw [h]; exact hacc
      · rcases List.mem_cons.mp h with h | h
        · rw [h]; exact hacc_e
        · exact ih (if betterCand e c then e else c) d (List.mem_cons_of_mem _ h)

/-! ## Dijkstra loop analysis -/

theorem dijkstraLoop_succ (edges : List Edge) (cost : Edge → ℚ) (target : Nat)
    (fuel : Nat) (visited : List Nat) (frontier : List Cand) :
    dijkstraLoop edges cost target (fuel + 1) visited frontier =
      match frontier.filter (fun c => !(visited.contains c.node)) with
      | [] => none
      | c :: cs =>
        let best := pickBest c cs
        if best.node = target then some best.path
        else
          dijkstraLoop edges cost target fuel (best.node :: visited)
            (relax edges cost best ++ frontier) := rfl

theorem relax_adjacent {edges : List Edge} {cost : Edge → ℚ} {b c' : Cand}
    (h : c' ∈ relax edges cost b) : adjacent edges b.node c'.node := by
  unfold relax at h
  rcases List.mem_map.mp h with ⟨e, he, rfl⟩
  have hef : e ∈ edges := (List.mem_filter.mp he).1
  have hcond := (List.mem_filter.mp he).2
  simp only [Bool.or_eq_true, beq_iff_eq] at hcond
  by_cases hs : (e.source == b.node) = true
  · have hs' : e.source = b.node := by simpa using hs
    exact ⟨e, hef, Or.inl ⟨hs', by simp [hs]⟩⟩
  · have ht' : e.target = b.node := by
      rcases hcond with h1 | h1
      · exact absurd (by simpa using h1) (by simpa using hs)
      · exact h1
    exact ⟨e, hef, Or.inr ⟨by simp [hs], ht'⟩⟩

theorem adjacent_relax {edges : List Edge} (cost : Edge → ℚ) {b : Cand}
    {v : Nat} (h : adjacent edges b.node v) :
    ∃ c' ∈ relax edges cost b, c'.node = v := by
  rcases h with ⟨e, hef, hor⟩
  have hmemf : e ∈ edges.filter (fun e => e.source == b.node || e.target == b.node) := by
    refine List.mem_filter.mpr ⟨hef, ?_⟩
    rcases hor with ⟨h1, _⟩ | ⟨_, h2⟩
    · simp [h1]
    · simp [h2]
  refine ⟨⟨if e.source == b.node then e.target else e.source,
      b.cost + cost e, some e.id, b.path ++ [e.id]⟩,
    List.mem_map.mpr ⟨e, hmemf, rfl⟩, ?_⟩
  rcases hor with ⟨h1, h2⟩ | ⟨h1, h2⟩
  · simp [h1, h2]
  · by_cases hsb : (e.source == b.node) = true
    · have : e.source = b.node := by simpa using hsb
      simp only [hsb, if_true]
      rw [h2]
      rw [this] at h1
      exact h1
    · simp only [hsb]
      simp [h1]

theorem relax_node_mem {edges : List Edge} {cost : Edge → ℚ} {b c' : Cand}
    {nodeIds : List Nat}
    (hwf : ∀ e ∈ edges, e.source ∈ nodeIds ∧ e.target ∈ nodeIds)
    (h : c' ∈ relax edges cost b) : c'.node ∈ nodeIds := by
  unfold relax at h
  rcases List.mem_map.mp h with ⟨e, he, rfl⟩
  have hef : e ∈ edges := (List.mem_filter.mp he).1
  by_cases hs : (e.source == b.node) = true
  · simp only [hs, if_true]
    exact (hwf e hef).2
  · simp only [hs]
    simpa using (hwf e hef).1

theorem relax_path_ne_nil {edges : List Edge} {cost : Edge → ℚ} {b c' : Cand}
    (h : c' ∈ relax edges cost b) : c'.path ≠ [] := by
  unfold relax at h
  rcases List.mem_map.mp h with ⟨e, _, rfl⟩
  simp

theorem nodup_length_le_dedup {visited nodeIds : List Nat}
    (hnd : visited.Nodup) (hsub : ∀ x ∈ visited, x ∈ nodeIds) :
    visited.length ≤ nodeIds.dedup.length := by
  classical
  have h1 : visited.toFinset.card = visited.length :=
    List.toFinset_card_of_nodup hnd
  have h2 : nodeIds.toFinset.card = nodeIds.dedup.length :=
    List.card_toFinset nodeIds
  have h3 : visited.toFinset ⊆ nodeIds.toFinset := by
    intro x hx
    rw [List.mem_toFinset] at hx ⊢
    exact hsub x hx
  calc visited.length = visited.toFinset.card := h1.symm
    _ ≤ nodeIds.toFinset.card := Finset.card_le_card h3
    _ = nodeIds.dedup.length := h2

/-- Soundness of the search: a returned path certifies connectivity. -/
theorem loop_some_reach {edges : List Edge} {cost : Edge → ℚ} {s t : Nat} :
    ∀ (fuel : Nat) (visited : List Nat) (frontier : List Cand) (p : List Nat),
      (∀ c ∈ frontier, Reachable edges s c.node) →
      dijkstraLoop edges cost t fuel visited frontier = some p →
      Reachable edges s t := by
  intro fuel
  induction fuel with
  | zero =>
      intro visited frontier p _ h
      simp [dijkstraLoop] at h
  | succ fuel ih =>
      intro visited frontier p hinv h
      rw [dijkstraLoop_succ] at h
      cases hf : frontier.filter (fun c => !(visited.contains c.node)) with
      | nil => rw [hf] at h; simp at h
      | cons c cs =>
          rw [hf] at h
          have hbm : pickBest c cs ∈ frontier := by
            have hm := pickBest_mem c cs
            rw [← hf] at hm
            exact (List.mem_filter.mp hm).1
          have hreach : Reachable edges s (pickBest c cs).node := hinv _ hbm
          by_cases ht : (pickBest c cs).node = t
          · exact ht ▸ hreach
          · rw [show (match c :: cs with
                | [] => (none : Option (List Nat))
                | c :: cs =>
                  let best := pickBest c cs
                  if best.node = t then some best.path
                  else
                    dijkstraLoop edges cost t fuel (best.node :: visited)
                      (relax edges cost best ++ frontier)) =
                (if (pickBest c cs).node = t then some (pickBest c cs).path
                  else
                    dijkstraLoop edges cost t fuel ((pickBest c cs).node :: visited)
                      (relax edges cost (pickBest c cs) ++ frontier)) from rfl,
              if_neg ht] at h
            refine ih _ _ p ?_ h
            intro c' hc'
            rcases List.mem_append.mp hc' with hc' | hc'
            · exact Reachable.tail hreach (relax_adjacent hc')
            · exact hinv c' hc'

/-- A returned empty path means the start candidate itself was the target. -/
theorem loop_some_nil {edges : List Edge} {cost : Edge → ℚ} {s t : Nat} :
    ∀ (fuel : Nat) (visited : List Nat) (frontier : List Cand),
      (∀ c ∈ frontier, c.path = [] → c.node = s) →
      dijkstraLoop edges cost t fuel visited frontier = some [] →
      s = t := by
  intro fuel
  induction fuel with
  | zero =>
      intro visited frontier _ h
      simp [dijkstraLoop] at h
  | succ fuel ih =>
      intro visited frontier hinv h
      rw [dijkstraLoop_succ] at h
      cases hf : frontier.filter (fun c => !(visited.contains c.node)) with
      | nil => rw [hf] at h; simp at h
      | cons c cs =>
          rw [hf] at h
          have hbm : pickBest c cs ∈ frontier := by
            have hm := pickBest_mem c cs
            rw [← hf] at hm
            exact (List.mem_filter.mp hm).1
          by_cases ht : (pickBest c cs).node = t
          · rw [show (match c :: cs with
                | [] => (none : Option (List Nat))
                | c :: cs =>
                  let best := pickBest c cs
                  if best.node = t then some best.path
                  else
                    dijkstraLoop edges cost t fuel (best.node :: visited)
                      (relax edges cost best ++ frontier)) =
                (if (pickBest c cs).node = t then some (pickBest c cs).path
                  else
                    dijkstraLoop edges cost t fuel ((pickBest c cs).node :: visited)
                      (relax edges cost (pickBest c cs) ++ frontier)) from rfl,
              if_pos ht] at h
            have hp : (pickBest c cs).path = [] := by
              simpa using h
            exact (hinv _ hbm hp).symm ▸ ht
          · rw [show (match c :: cs with
                | [] => (none : Option (List Nat))
                | c :: cs =>
                  let best := pickBest c cs
                  if best.node = t then some best.path
                  else
                    dijkstraLoop edges cost t fuel (best.node :: visited)
                      (relax edges cost best ++ frontier)) =
                (if (pickBest c cs).node = t then some (pickBest c cs).path
                  else
                    dijkstraLoop edges cost t fuel ((pickBest c cs).node :: visited)
                      (relax edges cost (pickBest c cs) ++ frontier)) from rfl,
              if_neg ht] at h
            refine ih _ _ ?_ h
            intro c' hc' hcp
            rcases List.mem_append.mp hc' with hc' | hc'
            · exact absurd hcp (relax_path_ne_nil hc')
            · exact hinv c' hc' hcp

/-- Completeness of the search: with enough fuel, a reachable target that is
not yet visited is found. -/
theorem loop_complete {edges : List Edge} {cost : Edge → ℚ} {s t : Nat}
    {nodeIds : List Nat}
    (hwf : ∀ e ∈ edges, e.source ∈ nodeIds ∧ e.target ∈ nodeIds) :
    ∀ (fuel : Nat) (visited : List Nat) (frontier : List Cand),
      (∀ c ∈ frontier, c.node ∈ nodeIds) →
      (∀ x ∈ visited, x ∈ nodeIds) →
      visited.Nodup →
      nodeIds.dedup.length < fuel + visited.length →
      (∀ u v, u ∈ visited → adjacent edges u v →
        v ∈ visited ∨ ∃ c ∈ frontier, c.node = v) →
      (s ∈ visited ∨ ∃ c ∈ frontier, c.node = s) →
      t ∉ visited →
      Reachable edges s t →
      ∃ p, dijkstraLoop edges cost t fuel visited frontier = some p := by
  intro fuel
  induction fuel with
  | zero =>
      intro visited frontier _ hvsub hvnd hcard _ _ _ _
      have := nodup_length_le_dedup hvnd hvsub
      omega
  | succ fuel ih =>
      intro visited frontier hfsub hvsub hvnd hcard hclosed hstart htvis hreach
      rw [dijkstraLoop_succ]
      cases hf : frontier.filter (fun c => !(visited.contains c.node)) with
      | nil =>
          exfalso
          have hallvis : ∀ c ∈ frontier, c.node ∈ visited := by
            intro c hc
            have := List.filter_eq_nil_iff.mp hf c hc
            simpa using this
          have hclosed' : ∀ u v, u ∈ visited → adjacent edges u v → v ∈ visited := by
            intro u v hu hadj
            rcases hclosed u v hu hadj with hv | ⟨c, hc, rfl⟩
            · exact hv
            · exact hallvis c hc
          have hsvis : s ∈ visited := by
            rcases hstart with hs | ⟨c, hc, rfl⟩
            · exact hs
            · exact hallvis c hc
          have : ∀ v, Reachable edges s v → v ∈ visited := by
            intro v hv
            induction hv with
            | refl => exact hsvis
            | tail _ hadj ihr => exact hclosed' _ _ ihr hadj
          exact htvis (this t hreach)
      | cons c cs =>
          have hbmf : pickBest c cs ∈
              frontier.filter (fun c => !(visited.contains c.node)) := by
            rw [hf]; exact pickBest_mem c cs
          have hbm : pickBest c cs ∈ frontier := (List.mem_filter.mp hbmf).1
          have hbnv : (pickBest c cs).node ∉ visited := by
            have := (List.mem_filter.mp hbmf).2
            simpa using this
          show ∃ p, (match c :: cs with
            | [] => (none : Option (List Nat))
            | c :: cs =>
              let best := pickBest c cs
              if best.node = t then some best.path
              else
                dijkstraLoop edges cost t fuel (best.node :: visited)
                  (relax edges cost best ++ frontier)) = some p
          by_cases ht : (pickBest c cs).node = t
          · exact ⟨(pickBest c cs).path, by
              show (if (pickBest c cs).node = t then some (pickBest c cs).path
                  else dijkstraLoop edges cost t fuel
                    ((pickBest c cs).node :: visited)
                    (relax edges cost (pickBest c cs) ++ frontier)) =
                some (pickBest c cs).path
              rw [if_pos ht]⟩
          · show ∃ p, (if (pickBest c cs).node = t then some (pickBest c cs).path
                else dijkstraLoop edges cost t fuel
                  ((pickBest c cs).node :: visited)
                  (relax edges cost (pickBest c cs) ++ frontier)) = some p
            rw [if_neg ht]
            refine ih ((pickBest c cs).node :: visited)
              (relax edges cost (pickBest c cs) ++ frontier) ?_ ?_ ?_ ?_ ?_ ?_ ?_ hreach
            · intro c' hc'
              rcases List.mem_append.mp hc' with hc' | hc'
              · exact relax_node_mem hwf hc'
              · exact hfsub c' hc'
            · intro x hx
              rcases List.mem_cons.mp hx with hx | hx
              · exact hx ▸ hfsub _ hbm
              · exact hvsub x hx
            · exact List.nodup_cons.mpr ⟨hbnv, hvnd⟩
            · simp only [List.length_cons]
              omega
            · intro u v hu hadj
              rcases List.mem_cons.mp hu with hu | hu
              · subst hu
                rcases adjacent_relax cost hadj with ⟨c', hc', rfl⟩
                exact Or.inr ⟨c', List.mem_append_left _ hc', rfl⟩
              · rcases hclosed u v hu hadj with hv | ⟨c', hc', rfl⟩
                · exact Or.inl (List.mem_cons_of_mem _ hv)
                · exact Or.inr ⟨c', List.mem_append_right _ hc', rfl⟩
            · rcases hstart with hs | ⟨c', hc', rfl⟩
              · exact Or.inl (List.mem_cons_of_mem _ hs)
              · exact Or.inr ⟨c', List.mem_append_right _ hc', rfl⟩
            · intro hx
              rcases List.mem_cons.mp hx with hx | hx
              · exact ht hx.symm
              · exact htvis hx

/-- When the start and end node coincide, the first pop returns the empty
path immediately. -/
theorem loop_self (edges : List Edge) (cost : Edge → ℚ) (s : Nat)
    (fuel : Nat) :
    dijkstraLoop edges cost s (fuel + 1) [] [⟨s, 0, none, []⟩] = some [] := by
  rw [dijkstraLoop_succ]
  show (if (pickBest ⟨s, 0, none, []⟩ []).node = s
      then some (pickBest ⟨s, 0, none, []⟩ []).path
      else dijkstraLoop edges cost s fuel ((pickBest ⟨s, 0, none, []⟩ []).node :: [])
        (relax edges cost (pickBest ⟨s, 0, none, []⟩ []) ++ [⟨s, 0, none, []⟩])) =
    some []
  rw [if_pos (show (pickBest ⟨s, 0, none, []⟩ []).node = s from rfl)]
  rfl

/-! ## Claim theorems for the path solver -/

theorem lookup_mem {m : Prefs} {a : String} {b : ℚ} (h : m.lookup a = some b) :
    (a, b) ∈ m := by
  induction m with
  | nil => simp [List.lookup] at h
  | cons kv rest ih =>
      obtain ⟨k, v⟩ := kv
      cases hk : (a == k) with
      | true =>
          have ha : a = k := by simpa using hk
          have hv : v = b := by simpa [List.lookup, hk] using h
          subst ha; subst hv
          exact List.mem_cons_self _ _
      | false =>
          have h' : rest.lookup a = some b := by
            simpa [List.lookup, hk] using h
          exact List.mem_cons_of_mem _ (ih h')

theorem build_cost_neutral {m : Prefs} (h : ∀ kv ∈ m, kv.2 = 1) (e : Edge) :
    build_cost_calculation m e = e.length := by
  have ht : type_conditions m = [] := by
    refine List.filter_eq_nil_iff.mpr ?_
    intro kv hkv
    have := h kv hkv
    simp [this]
  have h1 : road_type_factor m e = 1 := by
    unfold road_type_factor
    rw [ht]
    rfl
  have h2 : lit_factor m e = 1 := by
    unfold lit_factor
    cases hl : m.lookup "unlit" with
    | none => rfl
    | some v =>
        have := h _ (lookup_mem hl)
        simp at this
        simp [this]
  have h3 : scenic_factor m e = 1 := by
    unfold scenic_factor
    cases hl : m.lookup "scenic" with
    | none => rfl
    | some v =>
        have := h _ (lookup_mem hl)
        simp at this
        simp [this]
  unfold build_cost_calculation
  rw [h1, h2, h3, mul_one, mul_one, mul_one]

/-- C6: a preference map that is empty or all-neutral (every multiplier 1.0)
routes identically to supplying no multipliers at all, where the cost is the
plain edge length. -/
theorem calculate_route_neutral_equivalence (nodes : List Node)
    (edges : List Edge) (s t : Nat) (m : Prefs) (h : ∀ kv ∈ m, kv.2 = 1) :
    calculate_route nodes edges (some m) s t =
      calculate_route nodes edges none s t := by
  show (dijkstraLoop edges
      (if m.isEmpty then (fun e => e.length) else build_cost_calculation m) t
      (nodes.length + 1) [] [⟨s, 0, none, []⟩]).getD [] =
    (dijkstraLoop edges (fun e => e.length) t
      (nodes.length + 1) [] [⟨s, 0, none, []⟩]).getD []
  by_cases hm : m.isEmpty = true
  · rw [if_pos hm]
  · rw [if_neg hm,
      show build_cost_calculation m = (fun e => e.length) from
        funext (build_cost_neutral h)]

/-- Witness for C6 on a two-node, one-edge graph and the all-neutral map
`{scenic: 1.0}`. -/
theorem calculate_route_neutral_equivalence_witness :
    (∀ kv ∈ ([("scenic", (1 : ℚ))] : Prefs), kv.2 = 1) ∧
      calculate_route [⟨1, ⟨0, 0⟩⟩, ⟨2, ⟨1, 0⟩⟩]
          [⟨1, 1, 2, 100, "residential", true, 5, none, false⟩]
          (some [("scenic", 1)]) 1 2 =
        calculate_route [⟨1, ⟨0, 0⟩⟩, ⟨2, ⟨1, 0⟩⟩]
          [⟨1, 1, 2, 100, "residential", true, 5, none, false⟩] none 1 2 :=
  ⟨by decide, calculate_route_neutral_equivalence _ _ 1 2 _ (by decide)⟩

/-- C5: the spec-modelled solver is deterministic — two calls with identical
graph, cost profile and endpoints return the identical edge sequence — and
the frontier pop realises the documented tie-break: the selected candidate is
lexicographically minimal in (accumulated cost, incoming edge id), so among
equal-cost candidates the one reached via the lowest edge id is selected. -/
theorem calculate_route_deterministic_tiebreak :
    (∀ (nodes : List Node) (edges : List Edge) (mult : Option Prefs)
        (s t : Nat),
      calculate_route nodes edges mult s t =
        calculate_route nodes edges mult s t) ∧
    (∀ (c : Cand) (cs : List Cand) (d : Cand), d ∈ c :: cs →
      (pickBest c cs).cost < d.cost ∨
        ((pickBest c cs).cost = d.cost ∧
          viaLe (pickBest c cs).via d.via = true)) :=
  ⟨fun _ _ _ _ _ => rfl, fun c cs d hd => pickBest_min c cs d hd⟩

/-- Witness for C5: two equal-cost candidates for the same node; the pop
selects the one with the lower incoming edge id (2 rather than 4). -/
theorem calculate_route_deterministic_tiebreak_witness :
    ((⟨2, 5, some 2, [2]⟩ : Cand) ∈
        [(⟨2, 5, some 4, [4]⟩ : Cand), ⟨2, 5, some 2, [2]⟩]) ∧
      ((pickBest ⟨2, 5, some 4, [4]⟩ [⟨2, 5, some 2, [2]⟩]).cost < (5 : ℚ) ∨
        ((pickBest ⟨2, 5, some 4, [4]⟩ [⟨2, 5, some 2, [2]⟩]).cost = 5 ∧
          viaLe (pickBest ⟨2, 5, some 4, [4]⟩ [⟨2, 5, some 2, [2]⟩]).via
            (some 2) = true)) :=
  ⟨by decide,
    calculate_route_deterministic_tiebreak.2 _ _ ⟨2, 5, some 2, [2]⟩ (by decide)⟩

/-- C7 counterexample: with `start_node = end_node` inside a connected
component, the row set is empty — pgr_dijkstra returns an empty set for equal
endpoints — so main.py lines 181–183 raise the "No route found" failure even
though both endpoints are trivially in the same component. -/
theorem calculate_route_empty_at_equal_endpoints :
    calculate_route [⟨1, ⟨0, 0⟩⟩, ⟨2, ⟨1, 0⟩⟩]
        [⟨1, 1, 2, 100, "residential", true, 5, none, false⟩] none 1 1 = [] ∧
      Reachable [⟨1, 1, 2, 100, "residential", true, 5, none, false⟩] 1 1 :=
  ⟨by
      show (dijkstraLoop [⟨1, 1, 2, 100, "residential", true, 5, none, false⟩]
          (fun e => e.length) 1
          ([(⟨1, ⟨0, 0⟩⟩ : Node), ⟨2, ⟨1, 0⟩⟩].length + 1) []
          [⟨1, 0, none, []⟩]).getD [] = []
      rw [loop_self]
      rfl,
    Reachable.refl 1⟩

/-- C7 (amended): provided the graph is well-formed (edge endpoints reference
existing node ids) and the start node exists, the solver's row set is empty
exactly when the endpoints lie in different connected components of the
undirected multigraph or the two endpoints coincide (the degenerate
zero-length route is indistinguishable from "no route" in the returned rows
and is surfaced as the same "No route found" failure). -/
theorem calculate_route_empty_iff_unreachable_or_equal (nodes : List Node)
    (edges : List Edge) (mult : Option Prefs) (s t : Nat)
    (hwf : ∀ e ∈ edges, e.source ∈ nodes.map Node.id ∧
      e.target ∈ nodes.map Node.id)
    (hs : s ∈ nodes.map Node.id) :
    calculate_route nodes edges mult s t = [] ↔
      (¬ Reachable edges s t ∨ s = t) := by
  have hrepr : ∃ cost : Edge → ℚ, calculate_route nodes edges mult s t =
      (dijkstraLoop edges cost t (nodes.length + 1) []
        [⟨s, 0, none, []⟩]).getD [] := by
    cases mult with
    | none => exact ⟨fun e => e.length, rfl⟩
    | some m =>
        by_cases hm : m.isEmpty = true
        · refine ⟨fun e => e.length, ?_⟩
          show (dijkstraLoop edges
              (if m.isEmpty then (fun e => e.length)
                else build_cost_calculation m) t
              (nodes.length + 1) [] [⟨s, 0, none, []⟩]).getD [] = _
          rw [if_pos hm]
        · refine ⟨build_cost_calculation m, ?_⟩
          show (dijkstraLoop edges
              (if m.isEmpty then (fun e => e.length)
                else build_cost_calculation m) t
              (nodes.length + 1) [] [⟨s, 0, none, []⟩]).getD [] = _
          rw [if_neg hm]
  obtain ⟨cost, hcr⟩ := hrepr
  rw [hcr]
  constructor
  · intro hempty
    cases hloop : dijkstraLoop edges cost t (nodes.length + 1) []
        [⟨s, 0, none, []⟩] with
    | none =>
        by_cases hst : s = t
        · exact Or.inr hst
        · refine Or.inl fun hreach => ?_
          have hfr : ∀ c ∈ [(⟨s, 0, none, []⟩ : Cand)],
              c.node ∈ nodes.map Node.id := by
            intro c hc
            have hc' : c = ⟨s, 0, none, []⟩ := List.mem_singleton.mp hc
            rw [hc']
            exact hs
          have hcard : (nodes.map Node.id).dedup.length <
              (nodes.length + 1) + ([] : List Nat).length := by
            have h1 : (nodes.map Node.id).dedup.length ≤
                (nodes.map Node.id).length :=
              (List.dedup_sublist _).length_le
            simp only [List.length_map] at h1
            simp only [List.length_nil]
            omega
          obtain ⟨p, hp⟩ := loop_complete hwf (nodes.length + 1) []
            [⟨s, 0, none, []⟩] hfr
            (fun x hx => absurd hx (List.not_mem_nil x)) List.nodup_nil hcard
            (fun u _ hu _ => absurd hu (List.not_mem_nil u))
            (Or.inr ⟨⟨s, 0, none, []⟩, List.mem_singleton_self _, rfl⟩)
            (List.not_mem_nil t) hreach
          rw [hloop] at hp
          cases hp
    | some p =>
        rw [hloop] at hempty
        simp only [Option.getD_some] at hempty
        subst hempty
        refine Or.inr (loop_some_nil _ _ _ ?_ hloop)
        intro c hc _
        have hc' : c = ⟨s, 0, none, []⟩ := List.mem_singleton.mp hc
        rw [hc']
  · intro h
    rcases h with hnr | hst
    · cases hloop : dijkstraLoop edges cost t (nodes.length + 1) []
          [⟨s, 0, none, []⟩] with
      | none => rfl
      | some p =>
          refine absurd (loop_some_reach _ _ _ p ?_ hloop) hnr
          intro c hc
          have hc' : c = ⟨s, 0, none, []⟩ := List.mem_singleton.mp hc
          rw [hc']
          exact Reachable.refl s
    · subst hst
      rw [loop_self]
      rfl

/-- Witness for C7 on a well-formed two-node graph with one edge. -/
theorem calculate_route_empty_iff_witness :
    (∀ e ∈ [(⟨1, 1, 2, 100, "residential", true, 5, none, false⟩ : Edge)],
        e.source ∈ [(⟨1, ⟨0, 0⟩⟩ : Node), ⟨2, ⟨1, 0⟩⟩].map Node.id ∧
        e.target ∈ [(⟨1, ⟨0, 0⟩⟩ : Node), ⟨2, ⟨1, 0⟩⟩].map Node.id) ∧
      (1 ∈ [(⟨1, ⟨0, 0⟩⟩ : Node), ⟨2, ⟨1, 0⟩⟩].map Node.id) ∧
      (calculate_route [⟨1, ⟨0, 0⟩⟩, ⟨2, ⟨1, 0⟩⟩]
          [⟨1, 1, 2, 100, "residential", true, 5, none, false⟩] none 1 2 = [] ↔
        (¬ Reachable [⟨1, 1, 2, 100, "residential", true, 5, none, false⟩] 1 2 ∨
          1 = 2)) :=
  ⟨by decide, by decide,
    calculate_route_empty_iff_unreachable_or_equal _ _ none 1 2
      (by decide) (by decide)⟩

/-! ## Nearest node (C4) -/

theorem nearest_fold_mem (q : Point) (ns : List Node) (n : Node) :
    nearest_fold q n ns ∈ n :: ns := by
  induction ns generalizing n with
  | nil => simp [nearest_fold]
  | cons e es ih =>
      unfold nearest_fold
      rw [List.foldl_cons]
      have h := ih (if dist2 e.geom q < dist2 n.geom q then e else n)
      unfold nearest_fold at h
      rcases List.mem_cons.mp h with h | h
      · rw [h]
        split <;> simp
      · simp [h]

theorem nearest_fold_min (q : Point) (ns : List Node) (n : Node) :
    ∀ m ∈ n :: ns, dist2 (nearest_fold q n ns).geom q ≤ dist2 m.geom q := by
  induction ns generalizing n with
  | nil =>
      intro m hm
      rcases List.mem_cons.mp hm with h | h
      · subst h
        exact le_refl _
      · exact absurd h (List.not_mem_nil m)
  | cons e es ih =>
      intro m hm
      unfold nearest_fold
      rw [List.foldl_cons]
      have haccn :
          dist2 (if dist2 e.geom q < dist2 n.geom q then e else n).geom q ≤
            dist2 n.geom q := by
        split
        · next hlt => exact le_of_lt hlt
        · exact le_refl _
      have hacce :
          dist2 (if dist2 e.geom q < dist2 n.geom q then e else n).geom q ≤
            dist2 e.geom q := by
        split
        · exact le_refl _
        · next hnlt => exact le_of_not_lt hnlt
      have hmin := ih (if dist2 e.geom q < dist2 n.geom q then e else n)
      have hfold_acc :
          dist2 (nearest_fold q (if dist2 e.geom q < dist2 n.geom q then e else n)
              es).geom q ≤
            dist2 (if dist2 e.geom q < dist2 n.geom q then e else n).geom q :=
        hmin _ (List.mem_cons_self _ _)
      show dist2 (nearest_fold q (if dist2 e.geom q < dist2 n.geom q then e else n)
          es).geom q ≤ dist2 m.geom q
      rcases List.mem_cons.mp hm with h | h
      · subst h
        exact le_trans hfold_acc haccn
      · rcases List.mem_cons.mp h with h | h
        · subst h
          exact le_trans hfold_acc hacce
        · exact hmin m (List.mem_cons_of_mem _ h)

/-- C4 counterexample: two nodes both lying exactly at the query point are
equidistant, and the returned id is the first row's (5), not the lowest (3) —
the SQL orders by distance alone, with no id tie-break. -/
theorem find_nearest_node_not_lowest_id :
    find_nearest_node [⟨5, ⟨0, 0⟩⟩, ⟨3, ⟨0, 0⟩⟩] 0 0 = some 5 ∧
      find_nearest_node [⟨5, ⟨0, 0⟩⟩, ⟨3, ⟨0, 0⟩⟩] 0 0 ≠ some 3 := by
  have h : find_nearest_node [⟨5, ⟨0, 0⟩⟩, ⟨3, ⟨0, 0⟩⟩] 0 0 = some 5 := by
    show some (nearest_fold ⟨0, 0⟩ ⟨5, ⟨0, 0⟩⟩ [⟨3, ⟨0, 0⟩⟩]).id = some 5
    unfold nearest_fold
    rw [List.foldl_cons, if_neg (by norm_num [dist2])]
    rfl
  exact ⟨h, by rw [h]; simp⟩

/-- C4 (amended): the query yields `None` exactly when the node table is
empty; otherwise it returns the id of a node at minimal distance from the
query point, with ties resolved by row enumeration order (the SQL has no
secondary ordering), not necessarily the lowest id. -/
theorem find_nearest_node_returns_minimal (nodes : List Node) (lon lat : ℚ) :
    (find_nearest_node nodes lon lat = none ↔ nodes = []) ∧
      (∀ i, find_nearest_node nodes lon lat = some i →
        ∃ n ∈ nodes, n.id = i ∧
          ∀ m ∈ nodes, dist2 n.geom ⟨lon, lat⟩ ≤ dist2 m.geom ⟨lon, lat⟩) := by
  cases nodes with
  | nil =>
      constructor
      · simp [find_nearest_node]
      · intro i h
        simp [find_nearest_node] at h
  | cons n ns =>
      constructor
      · simp [find_nearest_node]
      · intro i h
        have hfm := nearest_fold_mem ⟨lon, lat⟩ ns n
        have hmin := nearest_fold_min ⟨lon, lat⟩ ns n
        have hi : (nearest_fold ⟨lon, lat⟩ n ns).id = i := by
          simpa [find_nearest_node] using h
        exact ⟨nearest_fold ⟨lon, lat⟩ n ns, hfm, hi, hmin⟩

/-- Witness for C4 on a one-node table. -/
theorem find_nearest_node_returns_minimal_witness :
    (find_nearest_node [⟨7, ⟨2, 3⟩⟩] 0 0 = some 7) ∧
      ∃ n ∈ [(⟨7, ⟨2, 3⟩⟩ : Node)], n.id = 7 ∧
        ∀ m ∈ [(⟨7, ⟨2, 3⟩⟩ : Node)], dist2 n.geom ⟨0, 0⟩ ≤ dist2 m.geom ⟨0, 0⟩ :=
  ⟨rfl, (find_nearest_node_returns_minimal [⟨7, ⟨2, 3⟩⟩] 0 0).2 7 rfl⟩

/-! ## Route assembly (`route_to_geojson`, services/routing.py) -/

/-- A route segment row as produced by `calculate_route` and consumed by
`route_to_geojson`.  The WKB geometry column is omitted: geometry decoding
and merging are performed by the external shapely library and are outside the
embedded fragment. -/
structure Segment where
  seq : Nat
  node : Nat
  edge : Nat
  cost : ℚ
  type : String
  lit : Bool
  scenic_score : ℚ
  name : Option String
  length : ℚ
deriving DecidableEq, Repr

/-- Python's built-in `round` to an integer: banker's rounding, half to
even. -/
def py_round_int (q : ℚ) : ℤ :=
  let f := ⌊q⌋
  let r := q - f
  if r < 1 / 2 then f
  else if r > 1 / 2 then f + 1
  else if Even f then f else f + 1

/-- Python's `round(x, 1)`. -/
def py_round1 (q : ℚ) : ℚ := (py_round_int (q * 10) : ℚ) / 10

/-- Python's `round(x, 2)`. -/
def py_round2 (q : ℚ) : ℚ := (py_round_int (q * 100) : ℚ) / 100

/-- The numeric and count properties of the single GeoJSON feature. -/
structure RouteProperties where
  distance_m : ℚ
  distance_km : ℚ
  segment_count : Nat
  lit_segments : Nat
  scenic_segments : Nat
deriving DecidableEq, Repr

/-- `route_to_geojson` (services/routing.py lines 152–204), restricted to the
feature's aggregate properties; `none` models the empty `FeatureCollection`
returned for an empty segment list.  `total_distance` sums the lengths of
segments with truthy (non-zero) length; `lit_segments` counts truthy `lit`;
`scenic_segments` counts `scenic_score > 7`; `distance_m` and `distance_km`
are rounded to 1 and 2 decimals respectively. -/
def route_to_geojson (segments : List Segment) : Option RouteProperties :=
  if segments.isEmpty then none
  else
    some
      { distance_m := py_round1
          (((segments.filter (fun s => s.length != 0)).map
            (fun s => s.length)).sum)
        distance_km := py_round2
          ((((segments.filter (fun s => s.length != 0)).map
            (fun s => s.length)).sum) / 1000)
        segment_count := segments.length
        lit_segments := (segments.filter (fun s => s.lit)).length
        scenic_segments :=
          (segments.filter (fun s => decide (s.scenic_score > 7))).length }

theorem sum_filter_truthy_length (segments : List Segment) :
    ((segments.filter (fun s => s.length != 0)).map (fun s => s.length)).sum =
      (segments.map (fun s => s.length)).sum := by
  induction segments with
  | nil => rfl
  | cons s ss ih =>
      rw [List.filter_cons]
      by_cases hl : (s.length != 0) = true
      · rw [if_pos hl]
        simp [ih]
      · rw [if_neg hl]
        have h0 : s.length = 0 := by simpa using hl
        simp [ih, h0]

/-- C8 counterexample: a single segment of physical length 0.07 m is reported
with `distance_m = round(0.07, 1) = 0.1`, which differs from the exact sum of
lengths 0.07. -/
theorem route_to_geojson_distance_rounded :
    route_to_geojson [⟨1, 1, 1, 0, "residential", true, 5, none, 7 / 100⟩] =
        some ⟨1 / 10, 0, 1, 1, 0⟩ ∧
      (([(⟨1, 1, 1, 0, "residential", true, 5, none, 7 / 100⟩ : Segment)]).map
          (fun s => s.length)).sum = 7 / 100 ∧
      (1 / 10 : ℚ) ≠ 7 / 100 := by
  refine ⟨?_, by norm_num, by norm_num⟩
  unfold route_to_geojson
  rw [if_neg (by simp)]
  have hfilter :
      ([(⟨1, 1, 1, 0, "residential", true, 5, none, 7 / 100⟩ : Segment)]).filter
          (fun s => s.length != 0) =
        [⟨1, 1, 1, 0, "residential", true, 5, none, 7 / 100⟩] := by
    rw [List.filter_cons, if_pos (by norm_num)]
    rfl
  rw [hfilter]
  have hsum :
      (([(⟨1, 1, 1, 0, "residential", true, 5, none, 7 / 100⟩ : Segment)]).map
        (fun s => s.length)).sum = 7 / 100 := by norm_num
  rw [hsum]
  have hr1 : py_round1 (7 / 100) = 1 / 10 := by
    unfold py_round1 py_round_int
    norm_num
  have hr2 : py_round2 (7 / 100 / 1000) = 0 := by
    unfold py_round2 py_round_int
    norm_num
  rw [hr1, hr2]
  have hlit :
      ([(⟨1, 1, 1, 0, "residential", true, 5, none, 7 / 100⟩ : Segment)]).filter
        (fun s => s.lit) =
        [⟨1, 1, 1, 0, "residential", true, 5, none, 7 / 100⟩] := rfl
  have hscenic :
      ([(⟨1, 1, 1, 0, "residential", true, 5, none, 7 / 100⟩ : Segment)]).filter
          (fun s => decide (s.scenic_score > 7)) = [] := by
    rw [List.filter_cons, if_neg (by norm_num)]
    rfl
  rw [hlit, hscenic]
  rfl

/-- C8 (amended): for every non-empty segment sequence, the feature reports
`distance_m` as the sum of the segments' physical lengths rounded to one
decimal — the weighted costs play no role — `lit_segments` as the count of
segments with `lit` true, and `scenic_segments` as the count of segments with
`scenic_score` strictly greater than 7.0. -/
theorem route_to_geojson_aggregates (segments : List Segment)
    (h : segments ≠ []) :
    route_to_geojson segments =
      some
        { distance_m := py_round1 ((segments.map (fun s => s.length)).sum)
          distance_km :=
            py_round2 ((segments.map (fun s => s.length)).sum / 1000)
          segment_count := segments.length
          lit_segments := (segments.filter (fun s => s.lit)).length
          scenic_segments :=
            (segments.filter (fun s => decide (s.scenic_score > 7))).length } := by
  unfold route_to_geojson
  rw [if_neg (by simpa using h), sum_filter_truthy_length]

/-- Witness for C8 on a one-segment route. -/
theorem route_to_geojson_aggregates_witness :
    (([(⟨1, 5, 13, 0, "path", false, 9, none, 140⟩ : Segment)]) ≠ []) ∧
      route_to_geojson [⟨1, 5, 13, 0, "path", false, 9, none, 140⟩] =
        some
          { distance_m := py_round1
              ((([(⟨1, 5, 13, 0, "path", false, 9, none, 140⟩ : Segment)]).map
                (fun s => s.length)).sum)
            distance_km := py_round2
              ((([(⟨1, 5, 13, 0, "path", false, 9, none, 140⟩ : Segment)]).map
                (fun s => s.length)).sum / 1000)
            segment_count :=
              ([(⟨1, 5, 13, 0, "path", false, 9, none, 140⟩ : Segment)]).length
            lit_segments :=
              (([(⟨1, 5, 13, 0, "path", false, 9, none, 140⟩ : Segment)]).filter
                (fun s => s.lit)).length
            scenic_segments :=
              (([(⟨1, 5, 13, 0, "path", false, 9, none, 140⟩ : Segment)]).filter
                (fun s => decide (s.scenic_score > 7))).length } :=
  ⟨by simp, route_to_geojson_aggregates _ (by simp)⟩

/-! ## Preference validation (C9) -/

/-- C9 counterexample: the non-positive multiplier `-1.0` passes the pydantic
model unchanged — no `InvalidPreferenceValue` rejection exists anywhere in
the source — and cost compilation consumes it as-is, yielding the negative
cost `-100` on a 100 m primary edge. -/
theorem negative_multiplier_accepted :
    validate_preferences [("primary", -1)] = .ok [("primary", -1)] ∧
      build_cost_calculation [("primary", -1)]
        ⟨1, 1, 2, 100, "primary", true, 5, none, false⟩ = -100 := by
  refine ⟨rfl, ?_⟩
  have h1 : road_type_factor [("primary", -1)]
      ⟨1, 1, 2, 100, "primary", true, 5, none, false⟩ = -1 := by
    unfold road_type_factor type_conditions
    rw [List.filter_cons, if_pos (by decide)]
    rfl
  have h2 : lit_factor [("primary", -1)]
      ⟨1, 1, 2, 100, "primary", true, 5, none, false⟩ = 1 := rfl
  have h3 : scenic_factor [("primary", -1)]
      ⟨1, 1, 2, 100, "primary", true, 5, none, false⟩ = 1 := rfl
  unfold build_cost_calculation
  rw [h1, h2, h3]
  norm_num

/-- C9 (amended): validation never rejects any preference value — the
pydantic model has no positivity validator — and nothing clamps or alters a
non-positive multiplier on its way into cost compilation: any `v ≠ 1` stored
under a road-type key multiplies the edge length verbatim, positive or not. -/
theorem validate_preferences_no_rejection_no_clamp :
    (∀ m : Prefs, validate_preferences m = .ok m) ∧
      (∀ (v : ℚ) (e : Edge), v ≠ 1 → e.type = "primary" →
        build_cost_calculation [("primary", v)] e = e.length * v) := by
  refine ⟨fun m => rfl, ?_⟩
  intro v e hv ht
  have hb : ((v != 1) : Bool) = true := by simpa using hv
  have h1 : road_type_factor [("primary", v)] e = v := by
    unfold road_type_factor type_conditions
    rw [List.filter_cons]
    have hcond : (!(special_attributes.contains ("primary", v).1) &&
        (("primary", v).2 != 1)) = true := by
      show (!(special_attributes.contains "primary") && (v != 1)) = true
      rw [hb]
      rfl
    rw [hcond, if_pos rfl]
    rw [List.find?_cons_of_pos _ (by simp [ht])]
  have h2 : lit_factor [("primary", v)] e = 1 := rfl
  have h3 : scenic_factor [("primary", v)] e = 1 := rfl
  unfold build_cost_calculation
  rw [h1, h2, h3, mul_one, mul_one]

/-- Witness for C9 (amended) at the multiplier `-1` and a primary edge. -/
theorem validate_preferences_no_rejection_no_clamp_witness :
    ((-1 : ℚ) ≠ 1) ∧
      build_cost_calculation [("primary", -1)]
        ⟨1, 1, 2, 100, "primary", true, 5, none, false⟩ = (100 : ℚ) * -1 :=
  ⟨by decide,
    validate_preferences_no_rejection_no_clamp.2 (-1)
      ⟨1, 1, 2, 100, "primary", true, 5, none, false⟩ (by decide) rfl⟩

end Strider
